import Mathlib

/-!
Verification of the Cost Estimate Aggregation Model of the
`extraction-dashboard` repository.

The repository consists of two React dashboards:
* `src/src/App.tsx` — the estimate dashboard, whose aggregation logic
  (sourceBreakdown, sourcePieData, section comparison, division breakdown,
  per-section line-item lists) is embedded below;
* `src/unnamed/part_000` — the extraction dashboard, whose `filteredItems`
  search/filter is embedded below.

JavaScript numbers are modelled by `JsNum`: a rational for every finite
value plus the three non-finite IEEE values `inf`, `negInf` and `nan`.
Rational arithmetic is exact where IEEE doubles round, but every claim
settled here concerns division-by-zero behaviour, absent keys, ordering or
exact algebraic identities, none of which depend on rounding.  The negative
zero of IEEE is not distinguished from zero; no claim depends on it.
-/

/-- A JavaScript number: finite (exact rational), positive infinity,
negative infinity, or NaN. -/
inductive JsNum where
  | fin (q : ℚ)
  | inf
  | negInf
  | nan
deriving DecidableEq

/-- JavaScript truthiness of a number: `0` and `NaN` are falsy. -/
def jsTruthy : JsNum → Bool
  | .fin q => q ≠ 0
  | .inf => true
  | .negInf => true
  | .nan => false

/-- `v || 0` on a JavaScript number: a falsy value (0 or NaN) is replaced
by `0`. -/
def jsOrZero (v : JsNum) : JsNum := if jsTruthy v then v else .fin 0

/-- IEEE addition on `JsNum` (exact in the finite case). -/
def jsAdd : JsNum → JsNum → JsNum
  | .fin a, .fin b => .fin (a + b)
  | .fin _, .inf => .inf
  | .fin _, .negInf => .negInf
  | .inf, .fin _ => .inf
  | .negInf, .fin _ => .negInf
  | .inf, .inf => .inf
  | .negInf, .negInf => .negInf
  | .inf, .negInf => .nan
  | .negInf, .inf => .nan
  | .nan, _ => .nan
  | _, .nan => .nan

/-- IEEE multiplication on `JsNum` (exact in the finite case). -/
def jsMul : JsNum → JsNum → JsNum
  | .fin a, .fin b => .fin (a * b)
  | .fin a, .inf => if 0 < a then .inf else if a < 0 then .negInf else .nan
  | .fin a, .negInf => if 0 < a then .negInf else if a < 0 then .inf else .nan
  | .inf, .fin b => if 0 < b then .inf else if b < 0 then .negInf else .nan
  | .negInf, .fin b => if 0 < b then .negInf else if b < 0 then .inf else .nan
  | .inf, .inf => .inf
  | .negInf, .negInf => .inf
  | .inf, .negInf => .negInf
  | .negInf, .inf => .negInf
  | .nan, _ => .nan
  | _, .nan => .nan

/-- IEEE division on `JsNum` (exact in the finite case); `a / 0` is
`Infinity`, `-Infinity` or `NaN` according to the sign of `a`. -/
def jsDiv : JsNum → JsNum → JsNum
  | .fin a, .fin b =>
      if b = 0 then (if 0 < a then .inf else if a < 0 then .negInf else .nan)
      else .fin (a / b)
  | .fin _, .inf => .fin 0
  | .fin _, .negInf => .fin 0
  | .inf, .fin b => if 0 ≤ b then .inf else .negInf
  | .negInf, .fin b => if 0 ≤ b then .negInf else .inf
  | .inf, .inf => .nan
  | .inf, .negInf => .nan
  | .negInf, .inf => .nan
  | .negInf, .negInf => .nan
  | .nan, _ => .nan
  | _, .nan => .nan

/-!
`Array.prototype.sort` with the comparator `(a, b) => b.key - a.key` is a
stable descending sort (stability is required by ECMAScript 2019 and later).
It is modelled by the stable insertion sort below: an element is inserted
before the first element whose key is less than or equal to its own, so
elements with equal keys keep their original relative order.
-/

/-- Insert `x` into a descending-sorted list, before the first element whose
key is `≤ key x`. -/
def insertDesc (key : α → ℚ) (x : α) : List α → List α
  | [] => [x]
  | y :: ys => if key y ≤ key x then x :: y :: ys else y :: insertDesc key x ys

/-- Stable descending insertion sort by a rational key. -/
def sortDesc (key : α → ℚ) : List α → List α
  | [] => []
  | x :: xs => insertDesc key x (sortDesc key xs)

theorem insertDesc_perm (key : α → ℚ) (x : α) (l : List α) :
    List.Perm (insertDesc key x l) (x :: l) := by
  induction l with
  | nil => simp [insertDesc]
  | cons y ys ih =>
      simp only [insertDesc]
      split
      · exact List.Perm.refl _
      · exact (List.Perm.cons y ih).trans (List.Perm.swap x y ys)

theorem sortDesc_perm (key : α → ℚ) (l : List α) : List.Perm (sortDesc key l) l := by
  induction l with
  | nil => simp [sortDesc]
  | cons x xs ih =>
      exact ((insertDesc_perm key x (sortDesc key xs)).trans (ih.cons x))

theorem mem_insertDesc {key : α → ℚ} {x a : α} {l : List α} :
    a ∈ insertDesc key x l ↔ a = x ∨ a ∈ l := by
  rw [(insertDesc_perm key x l).mem_iff]
  exact List.mem_cons

theorem mem_sortDesc {key : α → ℚ} {a : α} {l : List α} :
    a ∈ sortDesc key l ↔ a ∈ l := (sortDesc_perm key l).mem_iff

theorem insertDesc_sorted (key : α → ℚ) (x : α) {l : List α}
    (h : l.Pairwise (fun a b => key b ≤ key a)) :
    (insertDesc key x l).Pairwise (fun a b => key b ≤ key a) := by
  induction l with
  | nil => simp [insertDesc]
  | cons y ys ih =>
      simp only [insertDesc]
      rcases List.pairwise_cons.mp h with ⟨hy, hys⟩
      split
      · rename_i hle
        refine List.pairwise_cons.mpr ⟨?_, h⟩
        intro b hb
        rcases List.mem_cons.mp hb with rfl | hb
        · exact hle
        · exact le_trans (hy b hb) hle
      · rename_i hnle
        refine List.pairwise_cons.mpr ⟨?_, ih hys⟩
        intro b hb
        rcases mem_insertDesc.mp hb with rfl | hb
        · exact le_of_lt (lt_of_not_le hnle)
        · exact hy b hb

theorem sortDesc_sorted (key : α → ℚ) (l : List α) :
    (sortDesc key l).Pairwise (fun a b => key b ≤ key a) := by
  induction l with
  | nil => simp [sortDesc]
  | cons x xs ih => exact insertDesc_sorted key x ih

/-!
Data model of `src/src/App.tsx` (`interface ProjectData`, lines 13-32).
Numeric fields of the JSON document are finite (JSON cannot encode
non-finite numbers), so they are modelled as rationals; `Record<string, T>`
objects are modelled as association lists in key insertion order, the
enumeration order of `Object.entries`.
-/

/-- A priced line item (`ProjectData.lines` element). -/
structure LineItem where
  description : String
  quantity : ℚ
  unit : String
  unit_cost : ℚ
  total_cost : ℚ
  csi_division : String
  source : String
  confidence : String
deriving DecidableEq

/-- A report section (`ProjectData.sections` element). -/
structure Section where
  name : String
  divisions : List String
  pla : ℚ
  engine : ℚ
  pct : ℚ
deriving DecidableEq

/-- Project metadata (`ProjectData.project`). -/
structure Project where
  name : String
  client : String
  location : String
  building_type : String
  construction_type : String
  stories : ℚ
  gross_floor_area_sf : ℚ
  units : ℚ
  unit_type : String
  report_date : String
  report_number : String
  prepared_by : String
  «class» : String
  confidence_range : String
deriving DecidableEq

/-- Pricing-method figures (`ProjectData.summary.pricing_method`). -/
structure PricingMethod where
  cost_db_pct : ℚ
  rate_library_fallback_pct : ℚ
  parametric_gap_fill_pct : ℚ
  match_rate : ℚ
deriving DecidableEq

/-- Estimate summary (`ProjectData.summary`). -/
structure Summary where
  total_cost : ℚ
  cost_per_sf : ℚ
  cost_per_unit : ℚ
  line_count : ℚ
  pricing_method : PricingMethod
deriving DecidableEq

/-- A benchmark record (`ProjectData.benchmarks` value). -/
structure Benchmark where
  total : ℚ
  sf : ℚ
  cost_per_sf : ℚ
  note : String
deriving DecidableEq

/-- The root estimate document (`interface ProjectData`). -/
structure ProjectData where
  project : Project
  summary : Summary
  sections : List Section
  division_totals : List (String × ℚ)
  lines : List LineItem
  benchmarks : List (String × Benchmark)
deriving DecidableEq

/-- `SOURCE_LABELS` (App.tsx lines 52-59). -/
def SOURCE_LABELS : List (String × String) :=
  [("cost_db", "Cost Database"),
   ("cost_db_assembly", "DB Assembly"),
   ("system_breakout_db", "System Breakout (DB)"),
   ("system_breakout_fallback", "System Breakout (Est.)"),
   ("rate_library_fallback", "Rate Library"),
   ("parametric_gap_fill", "Parametric Gap-Fill")]

/-- `SOURCE_COLORS` (App.tsx lines 43-50). -/
def SOURCE_COLORS : List (String × String) :=
  [("cost_db", "#059669"),
   ("cost_db_assembly", "#10b981"),
   ("system_breakout_db", "#0891b2"),
   ("system_breakout_fallback", "#06b6d4"),
   ("rate_library_fallback", "#ca8a04"),
   ("parametric_gap_fill", "#94a3b8")]

/-- `DIVISION_NAMES` (App.tsx lines 67-75). -/
def DIVISION_NAMES : List (String × String) :=
  [("01", "General Requirements"), ("02", "Existing Conditions"),
   ("03", "Concrete"), ("04", "Masonry"), ("05", "Metals"),
   ("06", "Wood & Plastics"), ("07", "Thermal/Moisture"),
   ("08", "Openings"), ("09", "Finishes"), ("10", "Specialties"),
   ("11", "Equipment"), ("12", "Furnishings"), ("14", "Conveying"),
   ("21", "Fire Suppression"), ("22", "Plumbing"), ("23", "HVAC"),
   ("25", "Integrated Automation"), ("26", "Electrical"),
   ("27", "Communications"), ("28", "Electronic Safety"),
   ("31", "Earthwork"), ("32", "Ext. Improvements"), ("33", "Utilities")]

/-- `m[k] || dflt` on a string-valued record: an absent key (and the empty
string, which is falsy) falls back to the default. -/
def jsOrStr (o : Option String) (dflt : String) : String :=
  match o with
  | none => dflt
  | some s => if s = "" then dflt else s

/-- One step of the reduce on App.tsx line 103,
`acc[src] = (acc[src] || 0) + line.total_cost`, on an object whose values
are the finite numbers of the document: an existing key is updated in
place, a new key is appended (JS object insertion order). -/
def jsUpsert (m : List (String × ℚ)) (k : String) (c : ℚ) : List (String × ℚ) :=
  match m with
  | [] => [(k, c)]
  | (k', v) :: rest =>
      if k' = k then (k', (if v = 0 then 0 else v) + c) :: rest
      else (k', v) :: jsUpsert rest k c

/-- `sourceBreakdown` (App.tsx lines 101-105): groups the line items by
`source`, summing `total_cost`, via `reduce` into a fresh object. -/
def sourceBreakdown (lines : List LineItem) : List (String × ℚ) :=
  lines.foldl (fun acc l => jsUpsert acc l.source l.total_cost) []

/-- The `(key, value)` entries of `sourcePieData` before the display
mapping (App.tsx lines 107-109): positive totals only, sorted descending
by total. -/
def sourceEntries (lines : List LineItem) : List (String × ℚ) :=
  sortDesc (fun p => p.2) ((sourceBreakdown lines).filter (fun p => 0 < p.2))

/-- A pie-chart datum (App.tsx lines 110-114). -/
structure PieDatum where
  name : String
  value : ℚ
  color : String
deriving DecidableEq

/-- `sourcePieData` (App.tsx lines 107-114). -/
def sourcePieData (lines : List LineItem) : List PieDatum :=
  (sourceEntries lines).map (fun p =>
    { name := jsOrStr (List.lookup p.1 SOURCE_LABELS) p.1,
      value := p.2,
      color := jsOrStr (List.lookup p.1 SOURCE_COLORS) "#64748b" })

/-- The accuracy tier shown by the comparison table, read off the bar
colours of App.tsx line 445: green = on target, amber = acceptable,
red = off target. -/
inductive Tier where
  | on_target
  | acceptable
  | off_target
deriving DecidableEq

/-- The tier classification of App.tsx line 445,
`pct >= 90 && pct <= 110 ? green : pct >= 80 ? amber : red`. -/
def tierOfPct (pct : ℚ) : Tier :=
  if 90 ≤ pct ∧ pct ≤ 110 then .on_target
  else if 80 ≤ pct then .acceptable
  else .off_target

/-- A row of the section-by-section comparison table
(App.tsx lines 441-468). -/
structure ComparisonRow where
  name : String
  engine : ℚ
  pla : ℚ
  variance : ℚ
  pct : ℚ
  tier : Tier
deriving DecidableEq

/-- The per-section rows of the comparison table (App.tsx lines 441-468):
one row per section in input order, `variance = engine - pla`, accuracy
percentage taken from the document field `pct`, tier from the bar colour.
(The synthetic trailing TOTAL row of lines 470-480 is rendered separately
and carries no tier classification.) -/
def sectionComparison (data : ProjectData) : List ComparisonRow :=
  data.sections.map (fun s =>
    { name := s.name, engine := s.engine, pla := s.pla,
      variance := s.engine - s.pla, pct := s.pct, tier := tierOfPct s.pct })

/-- A row of the CSI division breakdown table (App.tsx lines 492-499
together with the `$/SF` cell computed at render time on line 545). -/
structure DivRow where
  name : String
  total : ℚ
  costPerArea : JsNum
  pct : JsNum
deriving DecidableEq

/-- `divData` of `BreakdownTab` (App.tsx lines 492-499) plus the `$/SF`
cell of line 545: the entries of a division-totals object, filtered to
positive totals, sorted descending, with
`pct = total / summary.total_cost * 100` and the rendered
`costPerArea = total / project.gross_floor_area_sf` — both divisions are
unguarded in the source. -/
def divDataOf (entries : List (String × ℚ)) (totalCost gfa : ℚ) : List DivRow :=
  (sortDesc (fun p => p.2) (entries.filter (fun p => 0 < p.2))).map (fun p =>
    { name := p.1 ++ " " ++ jsOrStr (List.lookup p.1 DIVISION_NAMES) p.1,
      total := p.2,
      costPerArea := jsDiv (.fin p.2) (.fin gfa),
      pct := jsMul (jsDiv (.fin p.2) (.fin totalCost)) (.fin 100) })

/-- The division breakdown view as the dashboard computes it: from the
pre-supplied `division_totals` object (App.tsx line 492). -/
def divisionBreakdown (data : ProjectData) : List DivRow :=
  divDataOf data.division_totals data.summary.total_cost data.project.gross_floor_area_sf

/-- The error raised by a JavaScript expression; `typeError` is the
TypeError thrown by a property access on `undefined`. -/
inductive JsError where
  | typeError
deriving DecidableEq

/-- `OverviewTab`, App.tsx line 289:
`data.summary.total_cost / data.benchmarks.pla.total * 100`.  The
benchmark key is hard-coded to `"pla"`; when it is absent the property
access `.total` on `undefined` throws a TypeError, and when the key is
present the division is unguarded. -/
def accuracyOverall (data : ProjectData) : Except JsError JsNum :=
  match List.lookup "pla" data.benchmarks with
  | none => .error .typeError
  | some b => .ok (jsMul (jsDiv (.fin data.summary.total_cost) (.fin b.total)) (.fin 100))

/-- `sectionLines` of `DetailsTab` (App.tsx line 604): the line items whose
`csi_division` is in the section's division list, by
`data.lines.filter(l => section.divisions.includes(l.csi_division))`. -/
def lineItemsForSection (data : ProjectData) (s : Section) : List LineItem :=
  data.lines.filter (fun l => s.divisions.contains l.csi_division)

/-- The section's line items as displayed (App.tsx line 635):
`sectionLines.sort((a, b) => b.total_cost - a.total_cost)`.  The sort is
in place, but it is applied to the array returned by `filter`, which is a
fresh array per the ECMAScript specification, so `data.lines` itself is
never reordered. -/
def sectionViewSorted (data : ProjectData) (s : Section) : List LineItem :=
  sortDesc (fun l => l.total_cost) (lineItemsForSection data s)

/-- The whole `DetailsTab` computation (App.tsx lines 603-656) as a
state-passing function: it produces the per-section displayed line-item
lists and the estimate document as it stands afterwards.  The only
in-place array operation performed, the sort of line 635, acts on the
fresh array produced by `filter`, which is recorded here by returning the
input document itself. -/
def detailsTabRun (data : ProjectData) : List (String × List LineItem) × ProjectData :=
  (data.sections.map (fun s => (s.name, sectionViewSorted data s)), data)

/-- The per-section buckets of line items, in section order. -/
def sectionBuckets (data : ProjectData) : List (List LineItem) :=
  data.sections.map (fun s => lineItemsForSection data s)

/-- Modelled from the spec: the "unassigned" bucket — the line items whose
`csi_division` is claimed by no section (§3: "if it appears in zero, the
aggregator must surface it as unassigned").  The dashboard in `src/` does
not render such a bucket; `DetailsTab` shows only the per-section groups. -/
def unassignedLines (data : ProjectData) : List LineItem :=
  data.lines.filter (fun l => !(data.sections.any (fun s => s.divisions.contains l.csi_division)))

/-- Modelled from the spec: the independent recomputation of
`divisionTotals` from `lines` (§3: "the aggregator must be able to
independently recompute an equivalent mapping from `lines`"), grouping by
`csi_division` and summing `total_cost`, with the same object-building
semantics as `sourceBreakdown`.  No such recomputation exists in `src/`. -/
def recomputeDivisionTotals (lines : List LineItem) : List (String × ℚ) :=
  lines.foldl (fun acc l => jsUpsert acc l.csi_division l.total_cost) []

/-- Specification-side characterisation of a source group's total: the sum
of `total_cost` over the line items with the given `source`. -/
def sourceTotal (lines : List LineItem) (k : String) : ℚ :=
  ((lines.filter (fun l => l.source = k)).map (fun l => l.total_cost)).sum

/-!
Raw, unvalidated documents.  The fetch on App.tsx lines 82-84 is
`fetch(...).then(r => r.json()).then(setData)`: the parsed JSON is passed
to the aggregation code with no validating parse, so required fields may
be missing.  A missing numeric field is `undefined`, which coerces to NaN
in arithmetic; a missing `source` is `undefined`, which as an object key
is the string `"undefined"`.
-/

/-- A line item of a raw, unvalidated document: every field may be
missing. -/
structure RawLineItem where
  description : Option String
  quantity : Option ℚ
  unit : Option String
  unit_cost : Option ℚ
  total_cost : Option ℚ
  csi_division : Option String
  source : Option String
  confidence : Option String
deriving DecidableEq

/-- Numeric coercion of a possibly-missing JSON number: `undefined`
becomes NaN. -/
def jsCoerceNum (o : Option ℚ) : JsNum :=
  match o with
  | some q => .fin q
  | none => .nan

/-- A possibly-missing string used as an object key: `undefined` becomes
the key `"undefined"`. -/
def jsKey (o : Option String) : String := o.getD "undefined"

/-- One step of the reduce of App.tsx line 103 on `JsNum` values,
`acc[src] = (acc[src] || 0) + line.total_cost`, keeping the JavaScript
`|| 0` semantics (NaN and 0 are falsy). -/
def rawUpsert (m : List (String × JsNum)) (k : String) (c : JsNum) : List (String × JsNum) :=
  match m with
  | [] => [(k, jsAdd (.fin 0) c)]
  | (k', v) :: rest =>
      if k' = k then (k', jsAdd (jsOrZero v) c) :: rest
      else (k', v) :: rawUpsert rest k c

/-- `sourceBreakdown` (App.tsx lines 101-105) applied to a raw,
unvalidated document. -/
def rawSourceBreakdown (lines : List RawLineItem) : List (String × JsNum) :=
  lines.foldl (fun acc l => rawUpsert acc (jsKey l.source) (jsCoerceNum l.total_cost)) []

/-!
Data model of `src/unnamed/part_000` (`interface ExtractionData`,
lines 5-14) — only the parts the search/filter operates on.
-/

/-- A sample extraction item (`ExtractionData.sample_items` element,
part_000 line 13). -/
structure ExtractionItem where
  page : ℚ
  «type» : String
  content : String
  confidence : ℚ
  discipline : String
deriving DecidableEq

/-- `String.prototype.includes`: substring containment, on character
lists. -/
def containsSub : List Char → List Char → Bool
  | hay@(_ :: t), needle => needle.isPrefixOf hay || containsSub t needle
  | [], needle => needle.isEmpty

/-- `hay.includes(needle)` on strings. -/
def strIncludes (hay needle : String) : Bool := containsSub hay.toList needle.toList

/-- `filteredItems` (part_000 lines 82-86):
`!searchQuery || item.content.toLowerCase().includes(searchQuery.toLowerCase())`
conjoined with
`selectedDiscipline === 'all' || item.discipline === selectedDiscipline`.
`Array.prototype.filter` does not mutate its receiver and preserves the
relative order of the kept elements. -/
def filteredItems (items : List ExtractionItem) (searchQuery selectedDiscipline : String) :
    List ExtractionItem :=
  items.filter (fun item =>
    (searchQuery == "" || strIncludes item.content.toLower searchQuery.toLower) &&
    (selectedDiscipline == "all" || item.discipline == selectedDiscipline))

/-- A filter predicate for `filterLines` (§4.1 op 6): each field absent
(`undefined`) or present. -/
structure LineFilter where
  searchText : Option String
  division : Option String
  source : Option String
deriving DecidableEq

/-- Modelled from the spec: `filterLines` (§4.1 op 6).  The repository
contains only the two-predicate instance `filteredItems` of part_000
(free-text search plus an `"all"`-defaulted category); the three-predicate
form over line items — case-insensitive substring search on `description`,
exact `csi_division` match with `"all"`/`undefined` matching all, exact
`source` match with `"all"`/`undefined` matching all, conjoined — follows
the spec's words. -/
def filterLines (lines : List LineItem) (f : LineFilter) : List LineItem :=
  lines.filter (fun l =>
    (match f.searchText with
     | none => true
     | some q => q == "" || strIncludes l.description.toLower q.toLower) &&
    (match f.division with
     | none => true
     | some d => d == "all" || l.csi_division == d) &&
    (match f.source with
     | none => true
     | some s => s == "all" || l.source == s))

/-!  Shared helper lemmas.  -/

theorem count_filter_eq [DecidableEq α] (p : α → Bool) (a : α) (l : List α) :
    List.count a (l.filter p) = if p a then List.count a l else 0 := by
  by_cases h : p a
  · rw [if_pos h]
    exact List.count_filter h
  · rw [if_neg h]
    exact List.count_eq_zero.mpr (fun hmem => h (List.mem_filter.mp hmem).2)

theorem countP_le_one_of_pairwise {l : List α} {p : α → Bool}
    (h : l.Pairwise (fun a b => ¬(p a = true ∧ p b = true))) : l.countP p ≤ 1 := by
  induction l with
  | nil => simp
  | cons a t ih =>
      rcases List.pairwise_cons.mp h with ⟨ha, ht⟩
      by_cases hpa : p a
      · have hz : t.countP p = 0 :=
          List.countP_eq_zero.mpr (fun b hb hpb => ha b hb ⟨hpa, hpb⟩)
        simp [hpa, hz]
      · simpa [hpa] using ih ht

theorem sum_map_ite_count {l : List α} {p : α → Bool} (n : ℕ) :
    (l.map (fun a => if p a then n else 0)).sum = l.countP p * n := by
  induction l with
  | nil => simp
  | cons a t ih =>
      by_cases hpa : p a <;> simp [hpa, ih, List.countP_cons, Nat.add_mul, Nat.add_comm]

/-!  Baseline concrete document pieces used by concrete witnesses and
counterexamples.  -/

def baseProject : Project :=
  { name := "Riverview Residence", client := "PLA", location := "Kenora ON",
    building_type := "Multi-Unit Residential", construction_type := "Wood Frame",
    stories := 3, gross_floor_area_sf := 1000, units := 10, unit_type := "beds",
    report_date := "2025-01-01", report_number := "R-001", prepared_by := "BuildCode",
    «class» := "Class D", confidence_range := "+/-30%" }

def basePricing : PricingMethod :=
  { cost_db_pct := 0, rate_library_fallback_pct := 0,
    parametric_gap_fill_pct := 0, match_rate := 0 }

def baseSummary : Summary :=
  { total_cost := 100, cost_per_sf := 0, cost_per_unit := 0,
    line_count := 0, pricing_method := basePricing }

/-!  C2 — tier classification of the comparison table.  -/

/-- Characterisation of the tier computed on App.tsx line 445: the
`acceptable` (amber) band has no upper bound — `pct >= 80` catches every
accuracy above 110 that is not in the 90-110 band. -/
theorem tierOfPct_char (p : ℚ) :
    (tierOfPct p = Tier.on_target ↔ 90 ≤ p ∧ p ≤ 110) ∧
    (tierOfPct p = Tier.acceptable ↔ ((80 ≤ p ∧ p < 90) ∨ 110 < p)) ∧
    (tierOfPct p = Tier.off_target ↔ p < 80) := by
  unfold tierOfPct
  split_ifs with h1 h2
  · refine ⟨by simpa using h1, ?_, ?_⟩
    · simp only [reduceCtorEq, false_iff]
      rintro (⟨h80, h90⟩ | h110)
      · linarith [h1.1]
      · linarith [h1.2]
    · simp only [reduceCtorEq, false_iff, not_lt]
      linarith [h1.1]
  · refine ⟨?_, ?_, ?_⟩
    · simp only [reduceCtorEq, false_iff]
      exact h1
    · simp only [true_iff]
      rcases not_and_or.mp h1 with h | h
      · exact Or.inl ⟨h2, lt_of_not_le h⟩
      · exact Or.inr (lt_of_not_le h)
    · simp only [reduceCtorEq, false_iff, not_lt]
      exact h2
  · have h80 : p < 80 := lt_of_not_le h2
    refine ⟨?_, ?_, by simpa using h80⟩
    · simp only [reduceCtorEq, false_iff]
      rintro ⟨h90, _⟩
      linarith
    · simp only [reduceCtorEq, false_iff]
      rintro (⟨hge, _⟩ | hgt)
      · linarith
      · linarith

/-- C2: the accuracy tier of every comparison-table row, as a function of
its accuracy percentage.  The claimed upper bound of the acceptable band
(`accuracyPct <= 130`) does not exist in the code: every accuracy
percentage strictly above 110 — however large — is classified
`acceptable`, and `off_target` is exactly `accuracyPct < 80`. -/
theorem sectionComparison_tier_char (data : ProjectData) (row : ComparisonRow)
    (hrow : row ∈ sectionComparison data) :
    (row.tier = Tier.on_target ↔ 90 ≤ row.pct ∧ row.pct ≤ 110) ∧
    (row.tier = Tier.acceptable ↔ ((80 ≤ row.pct ∧ row.pct < 90) ∨ 110 < row.pct)) ∧
    (row.tier = Tier.off_target ↔ row.pct < 80) := by
  rcases List.mem_map.mp hrow with ⟨s, _, rfl⟩
  exact tierOfPct_char s.pct

def overTargetSection : Section :=
  { name := "Shell", divisions := ["03"], pla := 100, engine := 150, pct := 150 }

def overTargetData : ProjectData :=
  { project := baseProject, summary := baseSummary,
    sections := [overTargetSection], division_totals := [], lines := [],
    benchmarks := [] }

/-- C2 counterexample: a section whose accuracy percentage is 150 — above
the claimed 130 cutoff — produces a row classified `acceptable` (amber),
not `off_target` as the claim states. -/
theorem sectionComparison_above_130_not_off_target :
    (sectionComparison overTargetData).map (fun r => (r.pct, r.tier)) =
      [((150 : ℚ), Tier.acceptable)] := by decide

def rowC2 : ComparisonRow :=
  { name := "Shell", engine := 150, pla := 100, variance := 50, pct := 150,
    tier := Tier.acceptable }

/-- C2 witness: the characterisation applied to the concrete row with
accuracy 150. -/
theorem sectionComparison_tier_char_witness :
    rowC2.tier = Tier.acceptable ↔ ((80 ≤ rowC2.pct ∧ rowC2.pct < 90) ∨ 110 < rowC2.pct) :=
  (sectionComparison_tier_char overTargetData rowC2
    (by rw [show sectionComparison overTargetData = [rowC2] from by
              norm_num [sectionComparison, overTargetData, overTargetSection, rowC2, tierOfPct]]
        exact List.mem_singleton_self rowC2)).2.1

/-!  C6 — `sourceBreakdown` preserves the total.  -/

theorem jsUpsert_snd_sum (m : List (String × ℚ)) (k : String) (c : ℚ) :
    ((jsUpsert m k c).map (fun p => p.2)).sum = (m.map (fun p => p.2)).sum + c := by
  induction m with
  | nil => simp [jsUpsert]
  | cons hd tl ih =>
      obtain ⟨k', v⟩ := hd
      simp only [jsUpsert]
      split
      · by_cases hv : v = 0 <;> simp [hv] <;> ring
      · simp [ih]
        ring

theorem sourceBreakdown_go_sum (lines : List LineItem) (acc : List (String × ℚ)) :
    ((lines.foldl (fun a l => jsUpsert a l.source l.total_cost) acc).map (fun p => p.2)).sum
      = (acc.map (fun p => p.2)).sum + (lines.map (fun l => l.total_cost)).sum := by
  induction lines generalizing acc with
  | nil => simp
  | cons l t ih =>
      simp only [List.foldl_cons, List.map_cons, List.sum_cons]
      rw [ih, jsUpsert_snd_sum]
      ring

/-- C6: the sum of the values of `sourceBreakdown(lines)` equals the sum of
`total_cost` over `lines` — exactly, in the rational model, hence a
fortiori within any rounding tolerance. -/
theorem sourceBreakdown_sum_total (lines : List LineItem) :
    ((sourceBreakdown lines).map (fun p => p.2)).sum
      = (lines.map (fun l => l.total_cost)).sum := by
  simpa using sourceBreakdown_go_sum lines []

/-!  C1 — partition of the line items into section buckets plus the
unassigned bucket.  -/

/-- C1 (amended): when the sections' division sets are pairwise disjoint,
the per-section buckets of `DetailsTab` together with the unassigned
bucket are exactly the multiset `lines`, and no line item appears under
two different sections.  Without the disjointness hypothesis the property
fails, because App.tsx line 604 filters each section independently instead
of classifying each line item by its first claiming section — see the
counterexample. -/
theorem detailsTab_partition (data : ProjectData)
    (hdisj : data.sections.Pairwise (fun s₁ s₂ => ∀ d, d ∈ s₁.divisions → d ∉ s₂.divisions)) :
    List.Perm ((sectionBuckets data).flatten ++ unassignedLines data) data.lines ∧
    data.sections.Pairwise
      (fun s₁ s₂ => ∀ l, l ∈ lineItemsForSection data s₁ → l ∉ lineItemsForSection data s₂) := by
  constructor
  · rw [List.perm_iff_count]
    intro l
    have hbucket : ∀ s : Section,
        List.count l (lineItemsForSection data s)
          = if s.divisions.contains l.csi_division then List.count l data.lines else 0 := by
      intro s
      exact count_filter_eq (fun li => s.divisions.contains li.csi_division) l data.lines
    have hflat : List.count l (sectionBuckets data).flatten
        = data.sections.countP (fun s => s.divisions.contains l.csi_division)
            * List.count l data.lines := by
      rw [List.count_flatten, sectionBuckets, List.map_map]
      have hcomp : (List.count l ∘ fun s => lineItemsForSection data s)
          = fun s : Section => List.count l (lineItemsForSection data s) := rfl
      rw [hcomp, List.map_congr_left (fun s _ => hbucket s)]
      exact sum_map_ite_count (List.count l data.lines)
    have hunassigned : List.count l (unassignedLines data)
        = if (data.sections.any (fun s => s.divisions.contains l.csi_division)) = true
          then 0 else List.count l data.lines := by
      rw [unassignedLines,
        count_filter_eq (fun li => !(data.sections.any (fun s => s.divisions.contains li.csi_division))) l data.lines]
      cases hb : data.sections.any (fun s => s.divisions.contains l.csi_division) <;>
        simp only [hb, Bool.not_true, Bool.not_false, if_true, if_false, Bool.false_eq_true,
          reduceIte]
    rw [List.count_append, hflat, hunassigned]
    by_cases hany : (data.sections.any (fun s => s.divisions.contains l.csi_division)) = true
    · rw [if_pos hany]
      have hpos : 0 < data.sections.countP (fun s => s.divisions.contains l.csi_division) := by
        rw [List.countP_pos_iff]
        simpa using List.any_eq_true.mp hany
      have hle : data.sections.countP (fun s => s.divisions.contains l.csi_division) ≤ 1 := by
        refine countP_le_one_of_pairwise (hdisj.imp ?_)
        intro s₁ s₂ hd hcl
        have h1 : l.csi_division ∈ s₁.divisions := by
          have := hcl.1
          simpa using this
        have h2 : l.csi_division ∈ s₂.divisions := by
          have := hcl.2
          simpa using this
        exact hd l.csi_division h1 h2
      have hone : data.sections.countP (fun s => s.divisions.contains l.csi_division) = 1 :=
        le_antisymm hle hpos
      rw [hone]
      simp
    · rw [if_neg hany]
      have hz : data.sections.countP (fun s => s.divisions.contains l.csi_division) = 0 := by
        rw [List.countP_eq_zero]
        intro s hs hcontra
        exact hany (List.any_eq_true.mpr ⟨s, hs, hcontra⟩)
      rw [hz]
      simp
  · refine hdisj.imp ?_
    intro s₁ s₂ hd l hl₁ hl₂
    have h1 : l.csi_division ∈ s₁.divisions := by
      have := (List.mem_filter.mp hl₁).2
      simpa using this
    have h2 : l.csi_division ∈ s₂.divisions := by
      have := (List.mem_filter.mp hl₂).2
      simpa using this
    exact hd l.csi_division h1 h2

def dupSectionA : Section :=
  { name := "Substructure", divisions := ["03"], pla := 0, engine := 0, pct := 0 }

def dupSectionB : Section :=
  { name := "Superstructure", divisions := ["03"], pla := 0, engine := 0, pct := 0 }

def dupLine : LineItem :=
  { description := "Concrete slab", quantity := 1, unit := "ea", unit_cost := 100,
    total_cost := 100, csi_division := "03", source := "cost_db", confidence := "high" }

def dupData : ProjectData :=
  { project := baseProject, summary := baseSummary,
    sections := [dupSectionA, dupSectionB], division_totals := [],
    lines := [dupLine], benchmarks := [] }

/-- C1 counterexample: with division "03" claimed by two different
sections, the single line item appears under both sections — it is not
classified by the first claiming section only — and the union of the
buckets plus the unassigned bucket has two elements where `lines` has
one, so the claimed exact partition fails. -/
theorem detailsTab_partition_counterexample :
    dupLine ∈ lineItemsForSection dupData dupSectionA ∧
    dupLine ∈ lineItemsForSection dupData dupSectionB ∧
    dupSectionA ≠ dupSectionB ∧
    ((sectionBuckets dupData).flatten ++ unassignedLines dupData).length = 2 ∧
    dupData.lines.length = 1 := by decide

def disjointData : ProjectData :=
  { project := baseProject, summary := baseSummary,
    sections := [{ name := "Substructure", divisions := ["03"], pla := 0, engine := 0, pct := 0 },
                 { name := "Finishes", divisions := ["09"], pla := 0, engine := 0, pct := 0 }],
    division_totals := [],
    lines := [dupLine,
              { description := "Paint", quantity := 1, unit := "ea", unit_cost := 5,
                total_cost := 5, csi_division := "09", source := "cost_db", confidence := "high" },
              { description := "Legal fees", quantity := 1, unit := "ea", unit_cost := 7,
                total_cost := 7, csi_division := "00", source := "cost_db", confidence := "low" }],
    benchmarks := [] }

/-- C1 witness: the partition theorem applied to the concrete document
whose two sections claim the disjoint division sets {"03"} and {"09"}. -/
theorem detailsTab_partition_witness :
    List.Perm ((sectionBuckets disjointData).flatten ++ unassignedLines disjointData)
      disjointData.lines :=
  (detailsTab_partition disjointData (by decide)).1

/-!  C3 — division breakdown with a zero floor area.  -/

/-- C3 (amended): the `$/SF` cell of App.tsx line 545 divides
unconditionally, so with `gross_floor_area_sf = 0` every division row
(whose total is positive, since non-positive totals are filtered out)
reports `costPerArea = Infinity` — not an undefined placeholder.  No
exception is thrown. -/
theorem divisionBreakdown_zero_area (data : ProjectData)
    (h : data.project.gross_floor_area_sf = 0) :
    ∀ row ∈ divisionBreakdown data, row.costPerArea = JsNum.inf := by
  intro row hrow
  unfold divisionBreakdown divDataOf at hrow
  rcases List.mem_map.mp hrow with ⟨p, hp, rfl⟩
  have hp' := mem_sortDesc.mp hp
  have hpos : 0 < p.2 := by simpa using (List.mem_filter.mp hp').2
  simp [h, jsDiv, hpos]

def zeroAreaData : ProjectData :=
  { project := { baseProject with gross_floor_area_sf := 0 },
    summary := { baseSummary with total_cost := 0 }, sections := [],
    division_totals := [("03", 100)], lines := [], benchmarks := [] }

/-- C3 counterexample: with `gross_floor_area_sf = 0` the single division
row carries `costPerArea = Infinity`, not an undefined value as the claim
states. -/
theorem divisionBreakdown_zero_area_counterexample :
    (divisionBreakdown zeroAreaData).map (fun r => r.costPerArea) = [JsNum.inf] := by
  decide

def rowC3 : DivRow :=
  { name := "03 Concrete", total := 100, costPerArea := JsNum.inf,
    pct := JsNum.inf }

/-- C3 witness: the amended theorem applied to the concrete zero-area
document and its concrete row. -/
theorem divisionBreakdown_zero_area_witness : rowC3.costPerArea = JsNum.inf :=
  divisionBreakdown_zero_area zeroAreaData rfl rowC3 (by decide)

/-!  C4 — overall accuracy against the hard-coded "pla" benchmark.  -/

/-- C4 (amended): `accuracyOverall` computes
`summary.total_cost / benchmarks.pla.total * 100` when the hard-coded
`"pla"` key is present with a nonzero total; when the key is absent the
property access throws a TypeError (it does not return an undefined
placeholder); and when the total is zero the result is Infinity,
-Infinity or NaN rather than an explicit undefined. -/
theorem accuracyOverall_char (data : ProjectData) :
    (List.lookup "pla" data.benchmarks = none →
       accuracyOverall data = Except.error JsError.typeError) ∧
    (∀ b : Benchmark, List.lookup "pla" data.benchmarks = some b → b.total ≠ 0 →
       accuracyOverall data
         = Except.ok (JsNum.fin (data.summary.total_cost / b.total * 100))) ∧
    (∀ b : Benchmark, List.lookup "pla" data.benchmarks = some b → b.total = 0 →
       accuracyOverall data = Except.ok JsNum.inf ∨
       accuracyOverall data = Except.ok JsNum.negInf ∨
       accuracyOverall data = Except.ok JsNum.nan) := by
  refine ⟨?_, ?_, ?_⟩
  · intro h
    simp [accuracyOverall, h]
  · intro b hb hnz
    simp only [accuracyOverall, hb]
    simp [jsDiv, jsMul, hnz]
  · intro b hb hz
    simp only [accuracyOverall, hb, hz]
    rcases lt_trichotomy data.summary.total_cost 0 with hneg | hzero | hpos
    · right; left
      simp [jsDiv, jsMul, hneg, not_lt_of_lt hneg]
    · right; right
      simp [jsDiv, jsMul, hzero]
    · left
      simp [jsDiv, jsMul, hpos]

def noPlaData : ProjectData :=
  { project := baseProject, summary := baseSummary, sections := [],
    division_totals := [], lines := [], benchmarks := [] }

/-- C4 counterexample: with the `"pla"` benchmark key absent the view
computation throws (a TypeError from reading `.total` of `undefined`)
instead of returning an explicit undefined/not-computable result. -/
theorem accuracyOverall_counterexample :
    accuracyOverall noPlaData = Except.error JsError.typeError := rfl

def plaBenchmark : Benchmark :=
  { total := 200, sf := 1000, cost_per_sf := 0, note := "contractor estimate" }

def plaData : ProjectData :=
  { project := baseProject, summary := baseSummary, sections := [],
    division_totals := [], lines := [], benchmarks := [("pla", plaBenchmark)] }

/-- C4 witness: the characterisation applied to a concrete document whose
"pla" benchmark total is 200 against a 100 total cost. -/
theorem accuracyOverall_char_witness :
    accuracyOverall plaData = Except.ok (JsNum.fin 50) := by
  have h := (accuracyOverall_char plaData).2.1 plaBenchmark rfl (by norm_num [plaBenchmark])
  rw [h]
  norm_num [plaData, baseSummary, plaBenchmark]

/-!  C5 — no validation at the document boundary.  -/

/-- C5 (amended): the aggregation code performs no input validation — the
fetched JSON is passed unchecked (App.tsx lines 82-84) — so a line item
whose required `total_cost` field is missing makes `sourceBreakdown`
silently return NaN in its view (under the key of the item's source),
with no typed validation failure naming the offending field. -/
theorem rawSourceBreakdown_missing_field (l : RawLineItem) (h : l.total_cost = none) :
    rawSourceBreakdown [l] = [(jsKey l.source, JsNum.nan)] := by
  simp [rawSourceBreakdown, rawUpsert, jsCoerceNum, h, jsAdd]

def missingCostLine : RawLineItem :=
  { description := some "Concrete slab", quantity := some 1, unit := some "ea",
    unit_cost := some 100, total_cost := none, csi_division := some "03",
    source := some "cost_db", confidence := some "high" }

/-- C5 counterexample: a line item missing its `total_cost` flows through
`sourceBreakdown` and produces a view containing NaN — silently, with no
typed validation failure. -/
theorem rawSourceBreakdown_counterexample :
    rawSourceBreakdown [missingCostLine] = [("cost_db", JsNum.nan)] := by decide

def missingSourceLine : RawLineItem :=
  { description := some "Mystery item", quantity := some 1, unit := some "ea",
    unit_cost := some 3, total_cost := none, csi_division := some "09",
    source := none, confidence := some "low" }

/-- C5 witness: the amended theorem applied to a concrete malformed line
whose `source` is also missing (grouped under the key "undefined"). -/
theorem rawSourceBreakdown_missing_field_witness :
    rawSourceBreakdown [missingSourceLine] = [("undefined", JsNum.nan)] :=
  rawSourceBreakdown_missing_field missingSourceLine rfl

/-!  C9 — no mutation of the estimate document.  -/

/-- C9: computing the `DetailsTab` views — including the per-section
descending-`total_cost` display sort, whose in-place `.sort` acts on the
fresh array returned by `filter` — leaves the estimate document unchanged:
`lines` keeps the same elements in the same order, and every other field
is untouched.  Each displayed section view is a permutation of the filter
of the original, unmutated `lines`. -/
theorem detailsTabRun_no_mutation (data : ProjectData) :
    (detailsTabRun data).2 = data ∧
    (detailsTabRun data).2.lines = data.lines ∧
    ∀ s ∈ data.sections,
      List.Perm (sectionViewSorted data s) (lineItemsForSection data s) := by
  refine ⟨rfl, rfl, ?_⟩
  intro s _
  exact sortDesc_perm _ _

def detailsSection : Section :=
  { name := "Substructure", divisions := ["03"], pla := 100, engine := 100, pct := 100 }

def detailsData : ProjectData :=
  { project := baseProject, summary := baseSummary,
    sections := [detailsSection], division_totals := [],
    lines := [dupLine,
              { description := "Footings", quantity := 2, unit := "ea", unit_cost := 200,
                total_cost := 400, csi_division := "03", source := "cost_db_assembly",
                confidence := "medium" }],
    benchmarks := [] }

/-- C9 witness: the no-mutation theorem applied to a concrete document and
section. -/
theorem detailsTabRun_no_mutation_witness :
    List.Perm (sectionViewSorted detailsData detailsSection)
      (lineItemsForSection detailsData detailsSection) :=
  (detailsTabRun_no_mutation detailsData).2.2 detailsSection (by decide)

/-!  C10 — the search/filter is conjunctive and the no-op filter is the
identity.  -/

/-- C10: a no-op filter returns the input list itself (same elements, same
order; the embedding of `Array.prototype.filter` is a pure function, which
reflects that `filter` does not mutate its receiver), and the predicates
are conjunctive — filtering once with the combined predicate equals
filtering sequentially, one predicate at a time.  Both the repository's
two-predicate `filteredItems` (part_000 lines 82-86) and the
spec-modelled three-predicate `filterLines` are covered. -/
theorem filteredItems_noop_and_conjunctive :
    (∀ items : List ExtractionItem, filteredItems items "" "all" = items) ∧
    (∀ (items : List ExtractionItem) (q d : String),
        filteredItems items q d =
          (items.filter (fun item =>
              q == "" || strIncludes item.content.toLower q.toLower)).filter
            (fun item => d == "all" || item.discipline == d)) ∧
    (∀ lines : List LineItem, filterLines lines ⟨none, none, none⟩ = lines) ∧
    (∀ lines : List LineItem,
        filterLines lines ⟨some "", some "all", some "all"⟩ = lines) ∧
    (∀ (lines : List LineItem) (f : LineFilter),
        filterLines lines f =
          ((lines.filter (fun l =>
              match f.searchText with
              | none => true
              | some q => q == "" || strIncludes l.description.toLower q.toLower)).filter
            (fun l =>
              match f.division with
              | none => true
              | some d => d == "all" || l.csi_division == d)).filter
            (fun l =>
              match f.source with
              | none => true
              | some s => s == "all" || l.source == s)) := by
  refine ⟨?_, ?_, ?_, ?_, ?_⟩
  · intro items
    simp [filteredItems]
  · intro items q d
    rw [filteredItems, List.filter_filter]
    congr 1
    funext item
    exact Bool.and_comm _ _
  · intro lines
    simp [filterLines]
  · intro lines
    simp [filterLines]
  · intro lines f
    simp only [filterLines, List.filter_filter]
    congr 1
    funext l
    cases f.searchText <;> cases f.division <;> cases f.source <;>
      simp [Bool.and_assoc, Bool.and_comm, Bool.and_left_comm]

def sampleItem : ExtractionItem :=
  { page := 3, «type» := "table_row", content := "Door D101 36x80",
    confidence := 9/10, discipline := "architectural" }

/-- C10 witness: the no-op filter applied to a concrete one-item list. -/
theorem filteredItems_noop_witness :
    filteredItems [sampleItem] "" "all" = [sampleItem] :=
  filteredItems_noop_and_conjunctive.1 [sampleItem]

/-!  C8 — the view from the supplied `division_totals` against the view
from the independently recomputed totals.  -/

theorem divDataOf_perm {e₁ e₂ : List (String × ℚ)} (tc gfa : ℚ)
    (h : List.Perm e₁ e₂) :
    List.Perm (divDataOf e₁ tc gfa) (divDataOf e₂ tc gfa) := by
  unfold divDataOf
  refine List.Perm.map _ ?_
  exact (sortDesc_perm _ _).trans ((h.filter _).trans (sortDesc_perm _ _).symm)

theorem divDataOf_sorted (entries : List (String × ℚ)) (tc gfa : ℚ) :
    (divDataOf entries tc gfa).Pairwise (fun a b => b.total ≤ a.total) := by
  unfold divDataOf
  rw [List.pairwise_map]
  exact sortDesc_sorted _ _

/-- C8 (amended): when the supplied `division_totals` object agrees with
the recomputed grouping of `lines` by `csi_division` — as a multiset of
key-value entries — the division-breakdown view computed from it and the
view computed from the recomputed totals are permutations of each other,
and each is sorted descending by total.  They need not be equal as
sequences: with tied totals the stable sort preserves each input's entry
order — see the counterexample. -/
theorem divisionBreakdown_refines (data : ProjectData)
    (h : List.Perm data.division_totals (recomputeDivisionTotals data.lines)) :
    List.Perm (divisionBreakdown data)
      (divDataOf (recomputeDivisionTotals data.lines)
        data.summary.total_cost data.project.gross_floor_area_sf) ∧
    (divisionBreakdown data).Pairwise (fun a b => b.total ≤ a.total) ∧
    (divDataOf (recomputeDivisionTotals data.lines)
        data.summary.total_cost data.project.gross_floor_area_sf).Pairwise
      (fun a b => b.total ≤ a.total) := by
  exact ⟨divDataOf_perm _ _ h, divDataOf_sorted _ _ _, divDataOf_sorted _ _ _⟩

def tieLine05 : LineItem :=
  { description := "Steel beams", quantity := 1, unit := "ea", unit_cost := 100,
    total_cost := 100, csi_division := "05", source := "cost_db", confidence := "high" }

def tieLine03 : LineItem :=
  { description := "Concrete slab", quantity := 1, unit := "ea", unit_cost := 100,
    total_cost := 100, csi_division := "03", source := "cost_db", confidence := "high" }

def tieData : ProjectData :=
  { project := baseProject, summary := baseSummary, sections := [],
    division_totals := [("03", 100), ("05", 100)],
    lines := [tieLine05, tieLine03], benchmarks := [] }

/-- C8 counterexample: the supplied `division_totals` and the recomputed
grouping agree exactly (they are permutations with equal values), yet the
two views are different sequences — the totals are tied, and the stable
descending sort preserves each input's own entry order ("03" first from
the supplied object, "05" first from the recomputed one). -/
theorem divisionBreakdown_refines_counterexample :
    List.Perm tieData.division_totals (recomputeDivisionTotals tieData.lines) ∧
    (divisionBreakdown tieData).map (fun r => (r.name, r.total)) =
      [("03 Concrete", (100 : ℚ)), ("05 Metals", 100)] ∧
    (divDataOf (recomputeDivisionTotals tieData.lines)
        tieData.summary.total_cost tieData.project.gross_floor_area_sf).map
      (fun r => (r.name, r.total)) =
      [("05 Metals", (100 : ℚ)), ("03 Concrete", 100)] ∧
    divisionBreakdown tieData ≠
      divDataOf (recomputeDivisionTotals tieData.lines)
        tieData.summary.total_cost tieData.project.gross_floor_area_sf := by
  refine ⟨by decide, by decide, by decide, ?_⟩
  intro hcontra
  have h := congrArg (List.map (fun r => (r.name, r.total))) hcontra
  rw [show (divisionBreakdown tieData).map (fun r => (r.name, r.total)) =
        [("03 Concrete", (100 : ℚ)), ("05 Metals", 100)] from by decide,
      show (divDataOf (recomputeDivisionTotals tieData.lines)
          tieData.summary.total_cost tieData.project.gross_floor_area_sf).map
        (fun r => (r.name, r.total)) =
        [("05 Metals", (100 : ℚ)), ("03 Concrete", 100)] from by decide] at h
  exact absurd h (by decide)

def matchData : ProjectData :=
  { project := baseProject, summary := baseSummary, sections := [],
    division_totals := [("03", 100)], lines := [tieLine03], benchmarks := [] }

/-- C8 witness: the refinement theorem applied to a concrete document
whose supplied totals equal the recomputed ones. -/
theorem divisionBreakdown_refines_witness :
    List.Perm (divisionBreakdown matchData)
      (divDataOf (recomputeDivisionTotals matchData.lines)
        matchData.summary.total_cost matchData.project.gross_floor_area_sf) :=
  (divisionBreakdown_refines matchData (by decide)).1

/-!  C7 — characterisation of `sourcePieData`.  -/

theorem jsUpsert_lookup_self (m : List (String × ℚ)) (k : String) (c : ℚ) :
    List.lookup k (jsUpsert m k c) = some ((List.lookup k m).getD 0 + c) := by
  induction m with
  | nil => simp [jsUpsert, List.lookup]
  | cons hd tl ih =>
      obtain ⟨k', v⟩ := hd
      by_cases hk : k' = k
      · subst hk
        have hv : (if v = 0 then (0 : ℚ) else v) + c = v + c := by
          by_cases hv0 : v = 0 <;> simp [hv0]
        simp [jsUpsert, List.lookup, hv]
      · have hbeq : (k == k') = false := beq_eq_false_iff_ne.mpr (Ne.symm hk)
        simp [jsUpsert, List.lookup, hk, hbeq, ih]

theorem jsUpsert_lookup_ne (m : List (String × ℚ)) (k : String) (c : ℚ)
    (k' : String) (h : k' ≠ k) :
    List.lookup k' (jsUpsert m k c) = List.lookup k' m := by
  have hbeq : (k' == k) = false := beq_eq_false_iff_ne.mpr h
  induction m with
  | nil => simp [jsUpsert, List.lookup, hbeq]
  | cons hd tl ih =>
      obtain ⟨k₀, v⟩ := hd
      by_cases hk : k₀ = k
      · subst hk
        simp [jsUpsert, List.lookup, hbeq]
      · simp [jsUpsert, List.lookup, hk, ih]

theorem sourceBreakdown_go_lookup (t : List LineItem) (acc : List (String × ℚ))
    (k : String) :
    List.lookup k (t.foldl (fun a l => jsUpsert a l.source l.total_cost) acc)
      = match List.lookup k acc with
        | some v => some (v + sourceTotal t k)
        | none => if t.any (fun l => l.source == k)
                  then some (sourceTotal t k) else none := by
  induction t generalizing acc with
  | nil =>
      cases hacc : List.lookup k acc <;> simp [sourceTotal, hacc]
  | cons l t ih =>
      rw [List.foldl_cons, ih]
      by_cases hk : l.source = k
      · have hst : sourceTotal (l :: t) k = l.total_cost + sourceTotal t k := by
          simp [sourceTotal, hk]
        cases hacc : List.lookup k acc with
        | some v =>
            rw [hk, jsUpsert_lookup_self, hacc]
            simp [hst, add_assoc, hk]
        | none =>
            rw [hk, jsUpsert_lookup_self, hacc]
            simp [hst, add_assoc, hk]
      · have hst : sourceTotal (l :: t) k = sourceTotal t k := by
          simp [sourceTotal, hk]
        rw [jsUpsert_lookup_ne acc l.source l.total_cost k (fun h => hk h.symm)]
        cases hacc : List.lookup k acc <;> simp [hacc, hst, hk]

theorem jsUpsert_keys_mem (m : List (String × ℚ)) (k : String) (c : ℚ)
    (h : k ∈ m.map Prod.fst) :
    (jsUpsert m k c).map Prod.fst = m.map Prod.fst := by
  induction m with
  | nil => simp at h
  | cons hd tl ih =>
      obtain ⟨k', v⟩ := hd
      by_cases hk : k' = k
      · subst hk
        simp [jsUpsert]
      · have h' : k ∈ tl.map Prod.fst := by
          rw [List.map_cons] at h
          rcases List.mem_cons.mp h with h'' | h''
          · exact absurd h''.symm hk
          · exact h''
        simp [jsUpsert, hk, ih h']

theorem jsUpsert_keys_not_mem (m : List (String × ℚ)) (k : String) (c : ℚ)
    (h : k ∉ m.map Prod.fst) :
    (jsUpsert m k c).map Prod.fst = m.map Prod.fst ++ [k] := by
  induction m with
  | nil => simp [jsUpsert]
  | cons hd tl ih =>
      obtain ⟨k', v⟩ := hd
      have hk : k' ≠ k := by
        intro hcontra
        exact h (by simp [hcontra])
      have h' : k ∉ tl.map Prod.fst := by
        intro hcontra
        exact h (by simp [hcontra])
      simp [jsUpsert, hk, ih h']

theorem jsUpsert_keys_nodup (m : List (String × ℚ)) (k : String) (c : ℚ)
    (h : (m.map Prod.fst).Nodup) :
    ((jsUpsert m k c).map Prod.fst).Nodup := by
  by_cases hm : k ∈ m.map Prod.fst
  · rw [jsUpsert_keys_mem m k c hm]
    exact h
  · rw [jsUpsert_keys_not_mem m k c hm]
    simp [List.nodup_append, h, hm]

theorem sourceBreakdown_keys_nodup (lines : List LineItem) :
    ((sourceBreakdown lines).map Prod.fst).Nodup := by
  have go : ∀ (t : List LineItem) (acc : List (String × ℚ)),
      (acc.map Prod.fst).Nodup →
      ((t.foldl (fun a l => jsUpsert a l.source l.total_cost) acc).map Prod.fst).Nodup := by
    intro t
    induction t with
    | nil =>
        intro acc h
        simpa using h
    | cons l t ih =>
        intro acc h
        rw [List.foldl_cons]
        exact ih _ (jsUpsert_keys_nodup acc l.source l.total_cost h)
  simpa using go lines [] (by simp)

theorem mem_iff_lookup {m : List (String × ℚ)} (h : (m.map Prod.fst).Nodup)
    (k : String) (v : ℚ) :
    (k, v) ∈ m ↔ List.lookup k m = some v := by
  induction m with
  | nil => simp
  | cons hd tl ih =>
      obtain ⟨k', v'⟩ := hd
      have hkeys : (k' :: tl.map Prod.fst).Nodup := by simpa using h
      rcases List.nodup_cons.mp hkeys with ⟨hk', htl⟩
      by_cases hk : k = k'
      · subst hk
        have hnot : (k, v) ∉ tl := by
          intro hmem
          exact hk' (List.mem_map.mpr ⟨(k, v), hmem, rfl⟩)
        constructor
        · intro hmem
          rcases List.mem_cons.mp hmem with heq | hmem'
          · have hv : v' = v := (congrArg Prod.snd heq).symm
            simp [List.lookup, hv]
          · exact absurd hmem' hnot
        · intro hlook
          have hv : v' = v := by simpa [List.lookup] using hlook
          exact List.mem_cons.mpr (Or.inl (by simp [hv]))
      · have hbeq : (k == k') = false := beq_eq_false_iff_ne.mpr hk
        constructor
        · intro hmem
          rcases List.mem_cons.mp hmem with heq | hmem'
          · exact absurd (congrArg Prod.fst heq) hk
          · simpa [List.lookup, hbeq] using (ih htl).mp hmem'
        · intro hlook
          have hl : List.lookup k tl = some v := by
            simpa [List.lookup, hbeq] using hlook
          exact List.mem_cons.mpr (Or.inr ((ih htl).mpr hl))

/-- C7: `sourcePieData` is the grouping of the line items by `source`
summing `total_cost` (characterised independently by `sourceTotal`), with
every group whose summed total is zero or negative dropped, sorted in
descending order of total, and then decorated with the display label and
colour.  An entry `(k, v)` appears in the underlying `sourceEntries` list
exactly when `v` is the positive summed total of a source that occurs in
`lines`. -/
theorem sourcePieData_char (lines : List LineItem) :
    sourcePieData lines = (sourceEntries lines).map (fun p =>
        { name := jsOrStr (List.lookup p.1 SOURCE_LABELS) p.1,
          value := p.2,
          color := jsOrStr (List.lookup p.1 SOURCE_COLORS) "#64748b" }) ∧
    (sourceEntries lines).Pairwise (fun a b => b.2 ≤ a.2) ∧
    ∀ k v, ((k, v) ∈ sourceEntries lines ↔
        0 < v ∧ (∃ l ∈ lines, l.source = k) ∧ v = sourceTotal lines k) := by
  refine ⟨rfl, sortDesc_sorted _ _, ?_⟩
  intro k v
  rw [sourceEntries, mem_sortDesc, List.mem_filter,
    mem_iff_lookup (sourceBreakdown_keys_nodup lines),
    sourceBreakdown, sourceBreakdown_go_lookup]
  simp only [List.lookup_nil]
  constructor
  · rintro ⟨hlk, hpos⟩
    by_cases hany : lines.any (fun l => l.source == k)
    · rw [if_pos hany] at hlk
      have hv : sourceTotal lines k = v := Option.some.inj hlk
      refine ⟨by simpa using hpos, ?_, hv.symm⟩
      simpa using hany
    · rw [if_neg hany] at hlk
      cases hlk
  · rintro ⟨hpos, ⟨l, hl, hsrc⟩, rfl⟩
    have hany : lines.any (fun l => l.source == k) = true :=
      List.any_eq_true.mpr ⟨l, hl, by simpa using hsrc⟩
    rw [if_pos hany]
    exact ⟨rfl, by simpa using hpos⟩

def scenarioLines : List LineItem :=
  [{ description := "Item A", quantity := 1, unit := "ea", unit_cost := 100,
     total_cost := 100, csi_division := "03", source := "cost_db", confidence := "high" },
   { description := "Item B", quantity := 1, unit := "ea", unit_cost := 50,
     total_cost := 50, csi_division := "09", source := "parametric_gap_fill",
     confidence := "low" },
   { description := "Item C", quantity := 1, unit := "ea", unit_cost := 0,
     total_cost := 0, csi_division := "22", source := "rate_library_fallback",
     confidence := "medium" }]

/-- The §8 scenario evaluated on the embedded code: the zero-total source
is dropped and the result is sorted descending. -/
theorem sourcePieData_scenario :
    sourcePieData scenarioLines =
      [{ name := "Cost Database", value := 100, color := "#059669" },
       { name := "Parametric Gap-Fill", value := 50, color := "#94a3b8" }] := by
  decide

/-- C7 witness: the characterisation applied to the §8 scenario list at
the entry ("cost_db", 100). -/
theorem sourcePieData_char_witness :
    ("cost_db", (100 : ℚ)) ∈ sourceEntries scenarioLines ↔
      (0 < (100 : ℚ) ∧ (∃ l ∈ scenarioLines, l.source = "cost_db") ∧
        (100 : ℚ) = sourceTotal scenarioLines "cost_db") :=
  (sourcePieData_char scenarioLines).2.2 "cost_db" 100
